import Mathlib

/-!
Verification of the sentiment-analysis web backend (`src/server/main.py`).

The batch WebSocket handler (`websocket_endpoint`) and the single-text POST
handler (`analyze_text`) are embedded shallowly:

* the external sentiment model (`sentiment_pipeline`) is a parameter
  `cls : List String → List String` (one raw label per input text);
* pandas CSV parsing is external (out of scope per the system's design); it is
  a parameter `parse : String → Except String Table`, where a `Table` carries
  the parsed columns with `Option String` cells (`none` models NaN, handled by
  `fillna`);
* Python float arithmetic in the progress computation
  `min(100, int(((i + len(batch_texts)) / total_texts) * 100))`
  is embedded exactly: IEEE-754 binary64 round-to-nearest-even with a 53-bit
  significand, represented as significand/exponent pairs over ℕ × ℤ
  (overflow and subnormals are unreachable for the values that occur, which
  all lie in `(0, 100]`);
* the event stream sent over the WebSocket is collected into a `List Event`,
  and every invocation of the classifier is logged in `calls`.
-/

namespace SAW

/-! ### IEEE-754 binary64 emulation

A positive finite double is `m * 2 ^ t` with significand `m ∈ [2^52, 2^53]`
(`2^53` only transiently, from a round-up at the binade boundary, which is
still exactly representable).  `flFrac n d` is the correctly rounded double of
the rational `n / d`; `dval` gives its exact rational value.
-/

/-- Structural (fuel-based) binary logarithm, so that the kernel can evaluate
it; agrees with `Nat.log 2` on positive inputs (see `nlog2_eq_log`). -/
def log2fuel : ℕ → ℕ → ℕ
  | 0, _ => 0
  | fuel + 1, n => if 2 ≤ n then log2fuel fuel (n / 2) + 1 else 0

/-- `⌊log₂ n⌋` (0 at 0), kernel-evaluable. -/
def nlog2 (n : ℕ) : ℕ := log2fuel n n

/-- Round-to-nearest-even of the fraction `n / d` to an integer. -/
def rne (n d : ℕ) : ℕ :=
  if 2 * (n % d) < d then n / d
  else if d < 2 * (n % d) then n / d + 1
  else if (n / d) % 2 = 0 then n / d else n / d + 1

/-- `⌊log₂ (n / d)⌋` for positive naturals `n`, `d`. -/
def ilog2 (n d : ℕ) : ℤ :=
  if d * 2 ^ nlog2 n ≤ n * 2 ^ nlog2 d then (nlog2 n : ℤ) - nlog2 d
  else (nlog2 n : ℤ) - nlog2 d - 1

/-- Round-to-nearest-even of `(n / d) * 2 ^ s` to an integer. -/
def rneAt (n d : ℕ) (s : ℤ) : ℕ :=
  if 0 ≤ s then rne (n * 2 ^ s.toNat) d else rne n (d * 2 ^ (-s).toNat)

/-- The correctly rounded (round-to-nearest-even) IEEE binary64 value of the
nonnegative rational `n / d`, as a significand/exponent pair. -/
def flFrac (n d : ℕ) : ℕ × ℤ :=
  if n = 0 then (0, 0) else (rneAt n d (52 - ilog2 n d), ilog2 n d - 52)

/-- Exact rational value of a significand/exponent pair. -/
def dval (p : ℕ × ℤ) : ℚ := (p.1 : ℚ) * (2 : ℚ) ^ p.2

/-- The exact product of the double `(m, t)` with the integer 100, as a
fraction of naturals (float multiplication by 100 is the correct rounding of
this exact product). -/
def fracTimes100 (m : ℕ) (t : ℤ) : ℕ × ℕ :=
  if 0 ≤ t then (m * 100 * 2 ^ t.toNat, 1) else (m * 100, 2 ^ (-t).toNat)

/-- Correctly rounded binary64 multiplication of the double `p` by the float
`100.0` (exact product, then one rounding). -/
def flMul100 (p : ℕ × ℤ) : ℕ × ℤ :=
  flFrac (fracTimes100 p.1 p.2).1 (fracTimes100 p.1 p.2).2

/-- `⌊m * 2 ^ t⌋` for a natural significand: Python `int()` truncation of a
nonnegative double. -/
def floorDyadic (m : ℕ) (t : ℤ) : ℕ :=
  if 0 ≤ t then m * 2 ^ t.toNat else m / 2 ^ (-t).toNat

/-- The progress value computed by the source at line 159:
`min(100, int(((i + len(batch_texts)) / total_texts) * 100))`, with Python
float division and multiplication embedded as correctly rounded binary64
operations (`flFrac`, `flMul100`), and `int` being truncation. -/
def progressCalc (rows total : ℕ) : ℤ :=
  min 100 (floorDyadic (flMul100 (flFrac rows total)).1 (flMul100 (flFrac rows total)).2 : ℤ)

/-- Modelled from the spec (§4.4.e): `floor(min(100, 100 * rows / total))`
computed over exact rational arithmetic.  Kept separate from `progressCalc`
(the source's float computation) so the two can be compared. -/
def progressSpecExact (rows total : ℕ) : ℤ :=
  ⌊min (100 : ℚ) (100 * (rows : ℚ) / (total : ℚ))⌋

/-! ### The label map and the classifier interface (lines 47–51, 27–55) -/

/-- The `label_map` dict built after a successful model load (lines 47–51). -/
def label_map : String → Option String := fun l =>
  if l = "LABEL_0" then some "negative"
  else if l = "LABEL_1" then some "neutral"
  else if l = "LABEL_2" then some "positive"
  else none

/-- `label_map.get(raw, 'unknown')` (lines 148, 200). -/
def labelOf (l : String) : String := (label_map l).getD "unknown"

/-- Python truthiness of `str(text).strip()` (lines 135, 145): the stripped
string is nonempty, i.e. the cell has at least one non-whitespace character.
(Whitespace is ASCII space/tab/CR/LF, which is what `Char.isWhitespace`
tests; Python's `strip` also removes a few rarer code points, which no claim
exercises.) -/
def nonblank (s : String) : Bool := s.data.any fun c => !c.isWhitespace

/-- Python truthiness of `data.get(...)` for an optional string field
(line 105): absent and empty both count as falsy. -/
def pyTruthy : Option String → Bool
  | none => false
  | some s => !s.isEmpty

/-! ### The WebSocket batch handler (lines 76–182) -/

/-- An outbound WebSocket message (`websocket.send_json` payloads). -/
inductive Event where
  | error (message : String)
  | info (message : String)
  | progress (progress : ℤ)
  | complete (data : List (String × String))
deriving DecidableEq

/-- The result of `pd.read_csv`: named columns of cells, a cell being `none`
for NaN (pandas parsing itself is external; handlers receive a parse
function `String → Except String Table`). -/
structure Table where
  cols : List (String × List (Option String))
deriving DecidableEq

/-- `BATCH_SIZE = 10` (line 126). -/
def BATCH_SIZE : ℕ := 10

/-- Lines 142–152: walk `batch_texts`, reading `model_results` at
`model_result_index` for each non-blank text (consuming the labels in order)
and inserting `'neutral'` for blank ones.  Returns the sentiments together
with the unconsumed labels; `none` models the `IndexError` raised when
`model_result_index` runs past the end of `model_results`. -/
def assignLoop : List String → List String → Option (List String × List String)
  | [], labels => some ([], labels)
  | text :: rest, labels =>
    if nonblank text then
      match labels with
      | [] => none
      | l :: ls =>
        match assignLoop rest ls with
        | none => none
        | some (sents, leftover) => some (labelOf l :: sents, leftover)
    else
      match assignLoop rest labels with
      | none => none
      | some (sents, leftover) => some ("neutral" :: sents, leftover)

/-- Accumulated outcome of the batch loop of lines 131–163: the
`all_results` list, the emitted progress values in order, the argument lists
of the classifier invocations in order, and — when a chunk raised — the
exception message. -/
structure BatchAcc where
  results : List (String × String)
  progresses : List ℤ
  calls : List (List String)
  failure : Option String
deriving DecidableEq

/-- The `for i in range(0, total_texts, BATCH_SIZE)` loop (lines 131–163),
recursing on the not-yet-processed suffix of `texts`; `i` is the number of
rows already processed.  The classifier is invoked only when the filtered
chunk is nonempty (lines 135–139); a chunk that raises stops the loop with
no further progress events (the exception propagates to line 170).
Structural recursion on an explicit `fuel` (any `fuel ≥ texts.length` gives
the loop's behaviour, see `runBatchesFuel_congr`; the `runBatches` wrapper
instantiates it), so the kernel can evaluate the definition. -/
def runBatchesFuel (cls : List String → List String) (total : ℕ) :
    ℕ → List String → ℕ → BatchAcc
  | _, [], _ => ⟨[], [], [], none⟩
  | 0, _ :: _, _ => ⟨[], [], [], none⟩
  | fuel + 1, text :: rest, i =>
    let batch_texts := (text :: rest).take BATCH_SIZE
    let processed_texts := batch_texts.filter nonblank
    let model_results := if processed_texts.isEmpty then [] else cls processed_texts
    let calls0 := if processed_texts.isEmpty then [] else [processed_texts]
    match assignLoop batch_texts model_results with
    | none => ⟨[], [], calls0, some "list index out of range"⟩
    | some (sentiments, _) =>
      let next := runBatchesFuel cls total fuel ((text :: rest).drop BATCH_SIZE)
        (i + batch_texts.length)
      ⟨batch_texts.zip sentiments ++ next.results,
       progressCalc (i + batch_texts.length) total :: next.progresses,
       calls0 ++ next.calls,
       next.failure⟩

/-- The batch loop of lines 131–163 on the row list. -/
def runBatches (cls : List String → List String) (total : ℕ)
    (texts : List String) (i : ℕ) : BatchAcc :=
  runBatchesFuel cls total texts.length texts i

/-- Lines 117–118: the selected column of the parsed table, with missing/NaN
cells replaced by the empty string (`fillna('')` then `tolist()`). -/
def colTexts (df : Table) (col : String) : List String :=
  ((df.cols.lookup col).getD []).map fun c => c.getD ""

/-- Outcome of one WebSocket connection: the ordered outbound events, the
classifier invocations, and whether the connection was closed (the `finally`
block at line 177 always closes, idempotently). -/
structure WSOut where
  events : List Event
  calls : List (List String)
  closed : Bool
deriving DecidableEq

/-- The WebSocket handler `websocket_endpoint` (lines 76–182).  `loaded`
states whether `sentiment_pipeline` is set; `parse` stands for
`pd.read_csv`; `message` is the received JSON's `columnName` and `csvData`
fields (`none` when absent).  Connection-level disconnects are not modelled:
the output is the full event sequence for an attached client. -/
def websocket_endpoint (loaded : Bool) (cls : List String → List String)
    (parse : String → Except String Table)
    (message : Option String × Option String) : WSOut :=
  if !loaded then
    ⟨[.error "Model not loaded on server."], [], true⟩
  else
    let selected_column := message.1
    let csv_data_string := message.2
    if !(pyTruthy selected_column && pyTruthy csv_data_string) then
      ⟨[.error ("An unexpected error occurred: Invalid request. \x27columnName\x27 and \x27csvData\x27 are required.")],
        [], true⟩
    else
      match parse (csv_data_string.getD "") with
      | .error e => ⟨[.error ("Error parsing CSV: " ++ e)], [], true⟩
      | .ok df =>
        let col := selected_column.getD ""
        if !((df.cols.map Prod.fst).contains col) then
          ⟨[.error ("Error parsing CSV: CSV file must contain a \x27" ++ col ++ "\x27 column.")],
            [], true⟩
        else
          let texts := colTexts df col
          let total_texts := texts.length
          let infoMsg :=
            "Processing " ++ toString total_texts ++ " texts from column \x27" ++ col ++ "\x27..."
          let acc := runBatches cls total_texts texts 0
          match acc.failure with
          | some msg =>
            ⟨.info infoMsg :: acc.progresses.map Event.progress
                ++ [.error ("An unexpected error occurred: " ++ msg)],
              acc.calls, true⟩
          | none =>
            ⟨.info infoMsg :: acc.progresses.map Event.progress ++ [.complete acc.results],
              acc.calls, true⟩

/-- The JSON body returned by the single-text endpoint: either
`{"text": ..., "sentiment": ...}` or `{"error": ...}`. -/
inductive TextResponse where
  | ok (text sentiment : String)
  | error (message : String)
deriving DecidableEq

/-- The single-text POST handler `analyze_text` (lines 185–209): returns the
response together with the classifier invocations.
`sentiment_pipeline([text])[0]` on an empty classifier result raises
`IndexError`, caught at line 207. -/
def analyze_text (loaded : Bool) (cls : List String → List String) (text : String) :
    TextResponse × List (List String) :=
  if !loaded then
    (.error "Model not loaded. Check server logs.", [])
  else
    match (cls [text]).head? with
    | none => (.error "An error occurred: list index out of range", [[text]])
    | some l => (.ok text (labelOf l), [[text]])

/-- The progress values among an event sequence, in emission order. -/
def progressValues (events : List Event) : List ℤ :=
  events.filterMap fun e =>
    match e with
    | .progress p => some p
    | _ => none

/-! ### Lemmas about the binary64 emulation -/

theorem log2fuel_eq_log2 (f : ℕ) : ∀ n : ℕ, n ≤ f → log2fuel f n = Nat.log2 n := by
  induction f with
  | zero =>
    intro n hn
    interval_cases n
    simp [log2fuel, Nat.log2]
  | succ f ih =>
    intro n hn
    rw [log2fuel, Nat.log2]
    by_cases h2 : 2 ≤ n
    · rw [if_pos h2, if_pos h2, ih (n / 2)]
      have : n / 2 < n := Nat.div_lt_self (by omega) (by omega)
      omega
    · rw [if_neg h2, if_neg h2]

theorem nlog2_eq_log2 (n : ℕ) : nlog2 n = Nat.log2 n :=
  log2fuel_eq_log2 n n le_rfl

theorem nlog2_le (n : ℕ) (hn : n ≠ 0) : 2 ^ nlog2 n ≤ n := by
  rw [nlog2_eq_log2, Nat.log2_eq_log_two]
  exact Nat.pow_log_le_self 2 hn

theorem nlog2_lt (n : ℕ) : n < 2 ^ (nlog2 n + 1) := by
  rw [nlog2_eq_log2, Nat.log2_eq_log_two]
  exact Nat.lt_pow_succ_log_self (by omega) n

/-- The integer-level two-sided bound for round-to-nearest:
`|rne n d - n / d| ≤ 1 / 2`, with denominators cleared. -/
theorem rne_bounds (n d : ℕ) (hd : 0 < d) :
    2 * d * rne n d ≤ 2 * n + d ∧ 2 * n ≤ 2 * d * rne n d + d := by
  unfold rne
  generalize hq : n / d = q
  generalize hr : n % d = r
  have hdm : d * q + r = n := by rw [← hq, ← hr]; exact Nat.div_add_mod n d
  have hlt : r < d := by rw [← hr]; exact Nat.mod_lt n hd
  constructor <;> (split_ifs <;> nlinarith)

theorem rne_scale (k n d : ℕ) (hk : 0 < k) : rne (k * n) (k * d) = rne n d := by
  unfold rne
  rw [Nat.mul_div_mul_left n d hk, Nat.mul_mod_mul_left]
  have h1 : 2 * (k * (n % d)) < k * d ↔ 2 * (n % d) < d := by
    constructor <;> intro hx <;> nlinarith
  have h2 : k * d < 2 * (k * (n % d)) ↔ d < 2 * (n % d) := by
    constructor <;> intro hx <;> nlinarith
  simp only [h1, h2]

theorem rne_mono (n m d : ℕ) (hd : 0 < d) (h : n ≤ m) : rne n d ≤ rne m d := by
  unfold rne
  generalize hq1 : n / d = qn
  generalize hr1 : n % d = rn
  generalize hq2 : m / d = qm
  generalize hr2 : m % d = rm
  have hdm : d * qn + rn = n := by rw [← hq1, ← hr1]; exact Nat.div_add_mod n d
  have hdm2 : d * qm + rm = m := by rw [← hq2, ← hr2]; exact Nat.div_add_mod m d
  have hlt : rn < d := by rw [← hr1]; exact Nat.mod_lt n hd
  have hlt2 : rm < d := by rw [← hr2]; exact Nat.mod_lt m hd
  have hq : qn ≤ qm := by rw [← hq1, ← hq2]; exact Nat.div_le_div_right h
  rcases eq_or_lt_of_le hq with hqe | hqs
  · subst hqe
    have hre : rn ≤ rm := by nlinarith
    split_ifs <;> omega
  · split_ifs <;> omega

theorem rne_cross_mono (n d m e : ℕ) (hd : 0 < d) (he : 0 < e) (h : n * e ≤ m * d) :
    rne n d ≤ rne m e := by
  have h1 : rne n d = rne (e * n) (e * d) := (rne_scale e n d he).symm
  have h2 : rne m e = rne (d * m) (d * e) := (rne_scale d m e hd).symm
  rw [h1, h2, Nat.mul_comm d e]
  exact rne_mono (e * n) (d * m) (e * d) (by positivity) (by nlinarith)

theorem rne_le_q (n d : ℕ) (hd : 0 < d) : (rne n d : ℚ) ≤ (n : ℚ) / d + 1 / 2 := by
  have hb := (rne_bounds n d hd).1
  have hc : ((2 * d * rne n d : ℕ) : ℚ) ≤ ((2 * n + d : ℕ) : ℚ) := Nat.cast_le.2 hb
  push_cast at hc
  have hdq : (0 : ℚ) < (d : ℚ) := by exact_mod_cast hd
  rw [show (n : ℚ) / d + 1 / 2 = (2 * n + d) / (2 * d) by field_simp; ring,
    le_div_iff₀ (by positivity)]
  nlinarith

theorem q_le_rne (n d : ℕ) (hd : 0 < d) : (n : ℚ) / d - 1 / 2 ≤ (rne n d : ℚ) := by
  have hb := (rne_bounds n d hd).2
  have hc : ((2 * n : ℕ) : ℚ) ≤ ((2 * d * rne n d + d : ℕ) : ℚ) := Nat.cast_le.2 hb
  push_cast at hc
  have hdq : (0 : ℚ) < (d : ℚ) := by exact_mod_cast hd
  rw [sub_le_iff_le_add, div_le_iff₀ hdq]
  nlinarith

theorem ilog2_le (n d : ℕ) (hn : 0 < n) (hd : 0 < d) :
    (2 : ℚ) ^ ilog2 n d ≤ (n : ℚ) / d := by
  have pa : 2 ^ nlog2 n ≤ n := nlog2_le n hn.ne'
  have pb2 : d < 2 ^ (nlog2 d + 1) := nlog2_lt d
  have hdq : (0 : ℚ) < (d : ℚ) := by exact_mod_cast hd
  unfold ilog2
  split_ifs with h
  · rw [zpow_natCast_sub_natCast₀ (by norm_num : (2:ℚ) ≠ 0),
      div_le_div_iff₀ (by positivity) hdq]
    have key : 2 ^ nlog2 n * d ≤ n * 2 ^ nlog2 d := by
      rw [Nat.mul_comm]
      exact h
    exact_mod_cast key
  · rw [show (nlog2 n : ℤ) - nlog2 d - 1 = ((nlog2 n : ℕ) : ℤ) - ((nlog2 d + 1 : ℕ) : ℤ) by
      push_cast; ring,
      zpow_natCast_sub_natCast₀ (by norm_num : (2:ℚ) ≠ 0),
      div_le_div_iff₀ (by positivity) hdq]
    have key : 2 ^ nlog2 n * d ≤ n * 2 ^ (nlog2 d + 1) :=
      Nat.mul_le_mul pa (le_of_lt pb2)
    exact_mod_cast key

theorem ilog2_lt (n d : ℕ) (hn : 0 < n) (hd : 0 < d) :
    (n : ℚ) / d < (2 : ℚ) ^ (ilog2 n d + 1) := by
  have pa2 : n < 2 ^ (nlog2 n + 1) := nlog2_lt n
  have pb : 2 ^ nlog2 d ≤ d := nlog2_le d hd.ne'
  have hdq : (0 : ℚ) < (d : ℚ) := by exact_mod_cast hd
  unfold ilog2
  split_ifs with h
  · rw [show (nlog2 n : ℤ) - nlog2 d + 1 = ((nlog2 n + 1 : ℕ) : ℤ) - ((nlog2 d : ℕ) : ℤ) by
      push_cast; ring,
      zpow_natCast_sub_natCast₀ (by norm_num : (2:ℚ) ≠ 0),
      div_lt_div_iff₀ hdq (by positivity)]
    have key : n * 2 ^ nlog2 d < 2 ^ (nlog2 n + 1) * d := by
      calc n * 2 ^ nlog2 d < 2 ^ (nlog2 n + 1) * 2 ^ nlog2 d :=
            (Nat.mul_lt_mul_right (by positivity)).2 pa2
        _ ≤ 2 ^ (nlog2 n + 1) * d := Nat.mul_le_mul_left _ pb
    exact_mod_cast key
  · rw [show (nlog2 n : ℤ) - nlog2 d - 1 + 1 = ((nlog2 n : ℕ) : ℤ) - ((nlog2 d : ℕ) : ℤ) by
      push_cast; ring,
      zpow_natCast_sub_natCast₀ (by norm_num : (2:ℚ) ≠ 0),
      div_lt_div_iff₀ hdq (by positivity)]
    push_neg at h
    have key : n * 2 ^ nlog2 d < 2 ^ nlog2 n * d := by
      rw [Nat.mul_comm (2 ^ nlog2 n) d]
      exact h
    exact_mod_cast key

theorem rneAt_le (n d : ℕ) (hd : 0 < d) (s : ℤ) :
    (rneAt n d s : ℚ) ≤ (n : ℚ) / d * 2 ^ s + 1 / 2 := by
  unfold rneAt
  split_ifs with hs
  · have h := rne_le_q (n * 2 ^ s.toNat) d hd
    have hz : (2 : ℚ) ^ s = (2 : ℚ) ^ s.toNat := by
      rw [← zpow_natCast]
      congr 1
      omega
    rw [hz]
    push_cast at h
    calc (rne (n * 2 ^ s.toNat) d : ℚ) ≤ (n : ℚ) * 2 ^ s.toNat / d + 1 / 2 := h
      _ = (n : ℚ) / d * 2 ^ s.toNat + 1 / 2 := by ring
  · have hd2 : 0 < d * 2 ^ (-s).toNat := by positivity
    have h := rne_le_q n (d * 2 ^ (-s).toNat) hd2
    have hz : (2 : ℚ) ^ s = ((2 : ℚ) ^ (-s).toNat)⁻¹ := by
      rw [← zpow_natCast, ← zpow_neg]
      congr 1
      omega
    rw [hz]
    push_cast at h
    calc (rne n (d * 2 ^ (-s).toNat) : ℚ)
        ≤ (n : ℚ) / ((d : ℚ) * 2 ^ (-s).toNat) + 1 / 2 := h
      _ = (n : ℚ) / d * ((2 : ℚ) ^ (-s).toNat)⁻¹ + 1 / 2 := by
          rw [div_mul_eq_div_div]
          ring

theorem le_rneAt (n d : ℕ) (hd : 0 < d) (s : ℤ) :
    (n : ℚ) / d * 2 ^ s - 1 / 2 ≤ (rneAt n d s : ℚ) := by
  unfold rneAt
  split_ifs with hs
  · have h := q_le_rne (n * 2 ^ s.toNat) d hd
    have hz : (2 : ℚ) ^ s = (2 : ℚ) ^ s.toNat := by
      rw [← zpow_natCast]
      congr 1
      omega
    rw [hz]
    push_cast at h
    calc (n : ℚ) / d * 2 ^ s.toNat - 1 / 2
        = (n : ℚ) * 2 ^ s.toNat / d - 1 / 2 := by ring
      _ ≤ (rne (n * 2 ^ s.toNat) d : ℚ) := h
  · have hd2 : 0 < d * 2 ^ (-s).toNat := by positivity
    have h := q_le_rne n (d * 2 ^ (-s).toNat) hd2
    have hz : (2 : ℚ) ^ s = ((2 : ℚ) ^ (-s).toNat)⁻¹ := by
      rw [← zpow_natCast, ← zpow_neg]
      congr 1
      omega
    rw [hz]
    push_cast at h
    calc (n : ℚ) / d * ((2 : ℚ) ^ (-s).toNat)⁻¹ - 1 / 2
        = (n : ℚ) / ((d : ℚ) * 2 ^ (-s).toNat) - 1 / 2 := by
          rw [div_mul_eq_div_div]
          ring
      _ ≤ (rne n (d * 2 ^ (-s).toNat) : ℚ) := h

theorem rneAt_mono (n d m e : ℕ) (hd : 0 < d) (he : 0 < e) (s : ℤ)
    (h : n * e ≤ m * d) : rneAt n d s ≤ rneAt m e s := by
  unfold rneAt
  split_ifs with hs
  · exact rne_cross_mono _ _ _ _ hd he (by nlinarith [Nat.pos_pow_of_pos s.toNat (show 0 < 2 by omega)])
  · exact rne_cross_mono _ _ _ _ (by positivity) (by positivity)
      (by nlinarith [Nat.pos_pow_of_pos (-s).toNat (show 0 < 2 by omega)])

theorem two_zpow_cast (k : ℕ) : ((2 ^ k : ℕ) : ℚ) = (2 : ℚ) ^ (k : ℤ) := by
  push_cast
  rw [zpow_natCast]

theorem dval_nonneg (p : ℕ × ℤ) : 0 ≤ dval p := by
  unfold dval
  positivity

theorem flFrac_fst (n d : ℕ) (hn : n ≠ 0) :
    (flFrac n d).1 = rneAt n d (52 - ilog2 n d) := by
  simp [flFrac, hn]

theorem flFrac_snd (n d : ℕ) (hn : n ≠ 0) : (flFrac n d).2 = ilog2 n d - 52 := by
  simp [flFrac, hn]

theorem dval_flFrac_eq (n d : ℕ) (hn : n ≠ 0) :
    dval (flFrac n d) = (rneAt n d (52 - ilog2 n d) : ℚ) * (2 : ℚ) ^ (ilog2 n d - 52) := by
  rw [dval, flFrac_fst n d hn, flFrac_snd n d hn]

/-- The exact value `(n / d) * 2 ^ (52 - e)` of the scaled significand lies in
`[2^52, 2^53)` for `e = ilog2 n d`. -/
theorem scaled_lower (n d : ℕ) (hn : 0 < n) (hd : 0 < d) :
    (2 : ℚ) ^ (52 : ℤ) ≤ (n : ℚ) / d * (2 : ℚ) ^ (52 - ilog2 n d) := by
  have h1 := ilog2_le n d hn hd
  have hz : (0 : ℚ) < (2 : ℚ) ^ (52 - ilog2 n d) := zpow_pos (by norm_num) _
  have key : (2 : ℚ) ^ ilog2 n d * (2 : ℚ) ^ (52 - ilog2 n d)
      ≤ (n : ℚ) / d * (2 : ℚ) ^ (52 - ilog2 n d) :=
    mul_le_mul_of_nonneg_right h1 (le_of_lt hz)
  rw [← zpow_add₀ (by norm_num : (2:ℚ) ≠ 0)] at key
  have he : ilog2 n d + (52 - ilog2 n d) = (52 : ℤ) := by ring
  rw [he] at key
  exact key

theorem scaled_upper (n d : ℕ) (hn : 0 < n) (hd : 0 < d) :
    (n : ℚ) / d * (2 : ℚ) ^ (52 - ilog2 n d) < (2 : ℚ) ^ (53 : ℤ) := by
  have h2 := ilog2_lt n d hn hd
  have hz : (0 : ℚ) < (2 : ℚ) ^ (52 - ilog2 n d) := zpow_pos (by norm_num) _
  have key : (n : ℚ) / d * (2 : ℚ) ^ (52 - ilog2 n d)
      < (2 : ℚ) ^ (ilog2 n d + 1) * (2 : ℚ) ^ (52 - ilog2 n d) :=
    mul_lt_mul_of_pos_right h2 hz
  rw [← zpow_add₀ (by norm_num : (2:ℚ) ≠ 0)] at key
  have he : ilog2 n d + 1 + (52 - ilog2 n d) = (53 : ℤ) := by ring
  rw [he] at key
  exact key

theorem flFrac_sig_lower (n d : ℕ) (hn : 0 < n) (hd : 0 < d) :
    2 ^ 52 ≤ (flFrac n d).1 := by
  rw [flFrac_fst n d hn.ne']
  have hb := scaled_lower n d hn hd
  have hr := le_rneAt n d hd (52 - ilog2 n d)
  have key : ((2 ^ 52 - 1 : ℕ) : ℚ) < (rneAt n d (52 - ilog2 n d) : ℚ) := by
    push_cast
    norm_num at hb
    linarith
  have : (2 ^ 52 - 1 : ℕ) < rneAt n d (52 - ilog2 n d) := by exact_mod_cast key
  omega

theorem flFrac_sig_upper (n d : ℕ) (hd : 0 < d) : (flFrac n d).1 ≤ 2 ^ 53 := by
  rcases Nat.eq_zero_or_pos n with hn | hn
  · subst hn
    simp [flFrac]
  · rw [flFrac_fst n d hn.ne']
    have hb := scaled_upper n d hn hd
    have hr := rneAt_le n d hd (52 - ilog2 n d)
    have key : (rneAt n d (52 - ilog2 n d) : ℚ) < ((2 ^ 53 + 1 : ℕ) : ℚ) := by
      push_cast
      norm_num at hb
      linarith
    have : rneAt n d (52 - ilog2 n d) < 2 ^ 53 + 1 := by exact_mod_cast key
    omega

theorem ilog2_cross_mono (n d m e : ℕ) (hn : 0 < n) (hd : 0 < d) (hm : 0 < m) (he : 0 < e)
    (h : n * e ≤ m * d) : ilog2 n d ≤ ilog2 m e := by
  have h1 := ilog2_le n d hn hd
  have h2 := ilog2_lt m e hm he
  have hdq : (0 : ℚ) < (d : ℚ) := by exact_mod_cast hd
  have heq : (0 : ℚ) < (e : ℚ) := by exact_mod_cast he
  have h3 : (n : ℚ) / d ≤ (m : ℚ) / e := by
    rw [div_le_div_iff₀ hdq heq]
    exact_mod_cast h
  have h4 : (2 : ℚ) ^ ilog2 n d < (2 : ℚ) ^ (ilog2 m e + 1) :=
    lt_of_le_of_lt (h1.trans h3) h2
  have := (zpow_lt_zpow_iff_right₀ (by norm_num : (1:ℚ) < 2)).1 h4
  omega

/-- Monotonicity of the correctly rounded double value in the rational
argument. -/
theorem dval_flFrac_mono (n d m e : ℕ) (hd : 0 < d) (he : 0 < e)
    (h : n * e ≤ m * d) : dval (flFrac n d) ≤ dval (flFrac m e) := by
  rcases Nat.eq_zero_or_pos n with hn | hn
  · subst hn
    have h0 : dval (flFrac 0 d) = 0 := by simp [flFrac, dval]
    rw [h0]
    exact dval_nonneg _
  · have hm : 0 < m := by
      rcases Nat.eq_zero_or_pos m with h0 | h0
      · subst h0
        nlinarith
      · exact h0
    have hee : ilog2 n d ≤ ilog2 m e := ilog2_cross_mono n d m e hn hd hm he h
    rw [dval_flFrac_eq n d hn.ne', dval_flFrac_eq m e hm.ne']
    rcases eq_or_lt_of_le hee with heq2 | hlt
    · rw [heq2]
      have hmono := rneAt_mono n d m e hd he (52 - ilog2 m e) h
      exact mul_le_mul_of_nonneg_right (by exact_mod_cast hmono)
        (le_of_lt (zpow_pos (by norm_num) _))
    · have hub : (rneAt n d (52 - ilog2 n d) : ℚ) ≤ (2 : ℚ) ^ (53 : ℤ) := by
        have h1 := flFrac_sig_upper n d hd
        rw [flFrac_fst n d hn.ne'] at h1
        norm_num
        exact_mod_cast h1
      have hlb : (2 : ℚ) ^ (52 : ℤ) ≤ (rneAt m e (52 - ilog2 m e) : ℚ) := by
        have h1 := flFrac_sig_lower m e hm he
        rw [flFrac_fst m e hm.ne'] at h1
        norm_num
        exact_mod_cast h1
      have hz1 : (0 : ℚ) < (2 : ℚ) ^ (ilog2 n d - 52) := zpow_pos (by norm_num) _
      have hz2 : (0 : ℚ) ≤ (rneAt m e (52 - ilog2 m e) : ℚ) := by positivity
      have step1 : (rneAt n d (52 - ilog2 n d) : ℚ) * (2 : ℚ) ^ (ilog2 n d - 52)
          ≤ (2 : ℚ) ^ (53 : ℤ) * (2 : ℚ) ^ (ilog2 n d - 52) :=
        mul_le_mul_of_nonneg_right hub (le_of_lt hz1)
      have step2 : (2 : ℚ) ^ (53 : ℤ) * (2 : ℚ) ^ (ilog2 n d - 52)
          ≤ (2 : ℚ) ^ (52 : ℤ) * (2 : ℚ) ^ (ilog2 m e - 52) := by
        rw [← zpow_add₀ (by norm_num : (2:ℚ) ≠ 0), ← zpow_add₀ (by norm_num : (2:ℚ) ≠ 0)]
        apply zpow_le_zpow_right₀ (by norm_num : (1:ℚ) ≤ 2)
        omega
      have step3 : (2 : ℚ) ^ (52 : ℤ) * (2 : ℚ) ^ (ilog2 m e - 52)
          ≤ (rneAt m e (52 - ilog2 m e) : ℚ) * (2 : ℚ) ^ (ilog2 m e - 52) :=
        mul_le_mul_of_nonneg_right hlb (le_of_lt (zpow_pos (by norm_num) _))
      linarith

/-- `t / t` is exactly `1.0`: the rounded significand/exponent pair is
`(2^52, -52)`. -/
theorem flFrac_self (t : ℕ) (ht : 0 < t) : flFrac t t = (2 ^ 52, -52) := by
  have he : ilog2 t t = 0 := by
    unfold ilog2
    rw [if_pos le_rfl]
    ring
  rw [flFrac, if_neg ht.ne', he]
  have h1 : rneAt t t (52 - 0) = 2 ^ 52 := by
    unfold rneAt
    rw [if_pos (by norm_num)]
    have ht2 : ((52 : ℤ) - 0).toNat = 52 := by decide
    rw [ht2]
    unfold rne
    rw [Nat.mul_comm t (2 ^ 52), Nat.mul_mod_left, Nat.mul_div_cancel _ ht]
    rw [if_pos (by omega)]
  rw [h1]
  norm_num

theorem fracTimes100_den_pos (m : ℕ) (t : ℤ) : 0 < (fracTimes100 m t).2 := by
  unfold fracTimes100
  split_ifs <;> simp

theorem fracTimes100_val (m : ℕ) (t : ℤ) :
    ((fracTimes100 m t).1 : ℚ) / ((fracTimes100 m t).2 : ℚ) = dval (m, t) * 100 := by
  unfold fracTimes100 dval
  split_ifs with hs
  · dsimp only
    have hz : (2 : ℚ) ^ t = (2 : ℚ) ^ t.toNat := by
      rw [← zpow_natCast]
      congr 1
      omega
    rw [hz]
    push_cast
    ring
  · dsimp only
    have hz : (2 : ℚ) ^ t = ((2 : ℚ) ^ (-t).toNat)⁻¹ := by
      rw [← zpow_natCast, ← zpow_neg]
      congr 1
      omega
    rw [hz]
    push_cast
    ring

theorem floorDyadic_eq (m : ℕ) (t : ℤ) : (floorDyadic m t : ℤ) = ⌊dval (m, t)⌋ := by
  unfold floorDyadic dval
  split_ifs with hs
  · dsimp only
    have hz : (2 : ℚ) ^ t = (2 : ℚ) ^ t.toNat := by
      rw [← zpow_natCast]
      congr 1
      omega
    rw [hz, show (m : ℚ) * (2 : ℚ) ^ t.toNat = ((m * 2 ^ t.toNat : ℕ) : ℚ) by push_cast; ring,
      Int.floor_natCast]
  · dsimp only
    have hz : (2 : ℚ) ^ t = ((2 : ℚ) ^ (-t).toNat)⁻¹ := by
      rw [← zpow_natCast, ← zpow_neg]
      congr 1
      omega
    rw [hz, ← div_eq_mul_inv,
      show ((2 : ℚ) ^ (-t).toNat) = (((2 ^ (-t).toNat : ℕ)) : ℚ) by push_cast; ring,
      Rat.floor_natCast_div_natCast]
    exact Int.ofNat_div _ _

theorem dval_flMul100_mono (p q : ℕ × ℤ) (h : dval p ≤ dval q) :
    dval (flMul100 p) ≤ dval (flMul100 q) := by
  unfold flMul100
  apply dval_flFrac_mono _ _ _ _ (fracTimes100_den_pos p.1 p.2) (fracTimes100_den_pos q.1 q.2)
  have hv : ((fracTimes100 p.1 p.2).1 : ℚ) / ((fracTimes100 p.1 p.2).2 : ℚ)
      ≤ ((fracTimes100 q.1 q.2).1 : ℚ) / ((fracTimes100 q.1 q.2).2 : ℚ) := by
    rw [fracTimes100_val p.1 p.2, fracTimes100_val q.1 q.2]
    simp only [Prod.mk.eta]
    nlinarith
  have hp2 : (0 : ℚ) < ((fracTimes100 p.1 p.2).2 : ℚ) := by
    exact_mod_cast fracTimes100_den_pos p.1 p.2
  have hq2 : (0 : ℚ) < ((fracTimes100 q.1 q.2).2 : ℚ) := by
    exact_mod_cast fracTimes100_den_pos q.1 q.2
  rw [div_le_div_iff₀ hp2 hq2] at hv
  exact_mod_cast hv

theorem progressCalc_nonneg (r t : ℕ) : 0 ≤ progressCalc r t := by
  unfold progressCalc
  exact le_min (by norm_num) (Int.natCast_nonneg _)

theorem progressCalc_le_100 (r t : ℕ) : progressCalc r t ≤ 100 := min_le_left _ _

theorem progressCalc_mono (r s t : ℕ) (ht : 0 < t) (h : r ≤ s) :
    progressCalc r t ≤ progressCalc s t := by
  unfold progressCalc
  apply min_le_min le_rfl
  have h1 : dval (flFrac r t) ≤ dval (flFrac s t) :=
    dval_flFrac_mono r t s t ht ht (Nat.mul_le_mul_right t h)
  have h2 : dval (flMul100 (flFrac r t)) ≤ dval (flMul100 (flFrac s t)) :=
    dval_flMul100_mono _ _ h1
  have h3 : ⌊dval (flMul100 (flFrac r t))⌋ ≤ ⌊dval (flMul100 (flFrac s t))⌋ :=
    Int.floor_le_floor h2
  rw [← floorDyadic_eq, ← floorDyadic_eq] at h3
  exact h3

theorem progressCalc_total (t : ℕ) (ht : 0 < t) : progressCalc t t = 100 := by
  unfold progressCalc
  rw [flFrac_self t ht]
  decide

/-! ### Lemmas about the per-chunk reassembly loop -/

/-- Full characterisation of lines 142–152 when the classifier returned at
least one label per non-blank text: the walk succeeds, produces one sentiment
per row, leaves exactly the unread labels, gives blank rows `'neutral'`, and
gives the non-blank rows the mapped labels in order. -/
theorem assignLoop_spec : ∀ batch labels : List String,
    (batch.filter nonblank).length ≤ labels.length →
    ∃ sents,
      assignLoop batch labels = some (sents, labels.drop (batch.filter nonblank).length) ∧
      sents.length = batch.length ∧
      (∀ p ∈ batch.zip sents, nonblank p.1 = false → p.2 = "neutral") ∧
      ((batch.zip sents).filter (fun p => nonblank p.1)).map Prod.snd
        = (labels.take (batch.filter nonblank).length).map labelOf := by
  intro batch
  induction batch with
  | nil =>
    intro labels h
    exact ⟨[], rfl, rfl, by simp, by simp⟩
  | cons t rest ih =>
    intro labels h
    by_cases hb : nonblank t
    · cases labels with
      | nil =>
        rw [List.filter_cons_of_pos hb] at h
        simp at h
      | cons l ls =>
        rw [List.filter_cons_of_pos hb] at h
        simp only [List.length_cons] at h
        have h2 : (rest.filter nonblank).length ≤ ls.length := by omega
        obtain ⟨sents, heq, hlen2, hneu, hfilt⟩ := ih ls h2
        refine ⟨labelOf l :: sents, ?_, ?_, ?_, ?_⟩
        · rw [List.filter_cons_of_pos hb]
          simp only [assignLoop, hb, if_pos, heq, List.length_cons, List.drop_succ_cons]
        · simp [hlen2]
        · intro p hp hf
          rw [List.zip_cons_cons, List.mem_cons] at hp
          rcases hp with hp | hp
          · subst hp
            simp only at hf
            rw [hb] at hf
            cases hf
          · exact hneu p hp hf
        · rw [List.zip_cons_cons, List.filter_cons_of_pos (by simpa using hb),
            List.filter_cons_of_pos hb, List.length_cons, List.take_succ_cons,
            List.map_cons, List.map_cons, hfilt]
    · rw [List.filter_cons_of_neg hb] at h
      obtain ⟨sents, heq, hlen2, hneu, hfilt⟩ := ih labels h
      refine ⟨"neutral" :: sents, ?_, ?_, ?_, ?_⟩
      · rw [List.filter_cons_of_neg hb]
        simp [assignLoop, hb, heq]
      · simp [hlen2]
      · intro p hp hf
        rw [List.zip_cons_cons, List.mem_cons] at hp
        rcases hp with hp | hp
        · rw [hp]
        · exact hneu p hp hf
      · rw [List.zip_cons_cons, List.filter_cons_of_neg (by simpa using hb),
          List.filter_cons_of_neg hb]
        exact hfilt

/-! ### The sequence of chunk-end row counts -/

/-- The cumulative row counts at which the batch loop emits progress events:
`i` rows already processed, `n` rows remaining. -/
def endsFuel : ℕ → ℕ → ℕ → List ℕ
  | 0, _, _ => []
  | _ + 1, 0, _ => []
  | f + 1, n + 1, i =>
    (i + min BATCH_SIZE (n + 1)) ::
      endsFuel f (n + 1 - min BATCH_SIZE (n + 1)) (i + min BATCH_SIZE (n + 1))

theorem endsFuel_zero_arg (f i : ℕ) : endsFuel f 0 i = [] := by
  cases f <;> rfl

theorem endsFuel_mem (f : ℕ) : ∀ n i x, x ∈ endsFuel f n i → i < x ∧ x ≤ i + n := by
  induction f with
  | zero =>
    intro n i x hx
    simp [endsFuel] at hx
  | succ f ih =>
    intro n i x hx
    cases n with
    | zero =>
      rw [endsFuel_zero_arg] at hx
      simp at hx
    | succ n =>
      rw [endsFuel] at hx
      have hB : BATCH_SIZE = 10 := rfl
      rcases List.mem_cons.1 hx with h | h
      · subst h
        omega
      · have := ih _ _ _ h
        omega

theorem endsFuel_sorted (f : ℕ) : ∀ n i, List.Pairwise (fun a b => a < b) (endsFuel f n i) := by
  induction f with
  | zero =>
    intro n i
    exact List.Pairwise.nil
  | succ f ih =>
    intro n i
    cases n with
    | zero =>
      rw [endsFuel_zero_arg]
      exact List.Pairwise.nil
    | succ n =>
      rw [endsFuel]
      refine List.Pairwise.cons ?_ (ih _ _)
      intro x hx
      exact (endsFuel_mem f _ _ x hx).1

theorem endsFuel_last (f : ℕ) : ∀ n i, n ≠ 0 → n ≤ f →
    (endsFuel f n i).getLast? = some (i + n) := by
  induction f with
  | zero =>
    intro n i h0 hf
    omega
  | succ f ih =>
    intro n i h0 hf
    cases n with
    | zero => omega
    | succ n =>
      rw [endsFuel]
      have hB : BATCH_SIZE = 10 := rfl
      by_cases hs : n + 1 ≤ BATCH_SIZE
      · have hmin : min BATCH_SIZE (n + 1) = n + 1 := by omega
        rw [hmin, Nat.sub_self, endsFuel_zero_arg]
        rfl
      · have hmin : min BATCH_SIZE (n + 1) = BATCH_SIZE := by omega
        rw [hmin]
        have hrec := ih (n + 1 - BATCH_SIZE) (i + BATCH_SIZE) (by omega) (by omega)
        rw [List.getLast?_cons, hrec]
        have : i + BATCH_SIZE + (n + 1 - BATCH_SIZE) = i + (n + 1) := by omega
        rw [this]
        rfl

/-! ### Characterisation of the batch loop -/

/-- When the classifier returns one label per input (the contract of the
external model), the loop never raises, produces exactly one result per row
in the original order, and emits one progress value per chunk, at the chunk-end
row counts. -/
theorem runBatchesFuel_spec (cls : List String → List String)
    (hlen : ∀ l, (cls l).length = l.length) (total : ℕ) :
    ∀ f rest i, rest.length ≤ f →
      (runBatchesFuel cls total f rest i).failure = none ∧
      (runBatchesFuel cls total f rest i).results.map Prod.fst = rest ∧
      (runBatchesFuel cls total f rest i).progresses
        = (endsFuel f rest.length i).map (fun r => progressCalc r total) := by
  intro f
  induction f with
  | zero =>
    intro rest i h
    have : rest = [] := List.eq_nil_of_length_eq_zero (by omega)
    subst this
    exact ⟨rfl, rfl, rfl⟩
  | succ f ih =>
    intro rest i h
    cases rest with
    | nil => exact ⟨rfl, rfl, rfl⟩
    | cons t ts =>
      have hpl : (((t :: ts).take BATCH_SIZE).filter nonblank).length ≤
          (if (((t :: ts).take BATCH_SIZE).filter nonblank).isEmpty then []
            else cls (((t :: ts).take BATCH_SIZE).filter nonblank)).length := by
        split_ifs with hempty
        · rw [List.isEmpty_iff] at hempty
          rw [hempty]
        · rw [hlen]
      obtain ⟨sents, heq, hslen, hneu, hfilt⟩ := assignLoop_spec _ _ hpl
      have hrec := ih ((t :: ts).drop BATCH_SIZE) (i + ((t :: ts).take BATCH_SIZE).length)
        (by
          have hB : BATCH_SIZE = 10 := rfl
          simp only [List.length_drop, List.length_cons] at h ⊢
          omega)
      rw [runBatchesFuel, heq]
      dsimp only
      refine ⟨hrec.1, ?_, ?_⟩
      · rw [List.map_append, List.map_fst_zip _ _ (by omega), hrec.2.1]
        exact List.take_append_drop _ _
      · rw [hrec.2.2]
        have hB : BATCH_SIZE = 10 := rfl
        have hlen1 : ((t :: ts).take BATCH_SIZE).length = min BATCH_SIZE (ts.length + 1) := by
          simp [List.length_take]
        have hlen2 : ((t :: ts).drop BATCH_SIZE).length
            = ts.length + 1 - min BATCH_SIZE (ts.length + 1) := by
          simp [List.length_drop]
          omega
        rw [hlen1, hlen2, show (t :: ts).length = ts.length + 1 from rfl, endsFuel,
          List.map_cons]

/-- Whatever the classifier does, every argument list it is invoked with is a
nonempty list of non-blank strings (lines 135–139: the filtered chunk, guarded
by `if processed_texts`). -/
theorem runBatchesFuel_calls (cls : List String → List String) (total : ℕ) :
    ∀ f rest i c, c ∈ (runBatchesFuel cls total f rest i).calls →
      c ≠ [] ∧ ∀ s ∈ c, nonblank s = true := by
  intro f
  induction f with
  | zero =>
    intro rest i c hc
    cases rest with
    | nil => simp [runBatchesFuel] at hc
    | cons t ts => simp [runBatchesFuel] at hc
  | succ f ih =>
    intro rest i c hc
    cases rest with
    | nil => simp [runBatchesFuel] at hc
    | cons t ts =>
      rw [runBatchesFuel] at hc
      dsimp only at hc
      have hsub : c ∈ (if (((t :: ts).take BATCH_SIZE).filter nonblank).isEmpty then []
          else [((t :: ts).take BATCH_SIZE).filter nonblank]) ∨
          c ∈ (runBatchesFuel cls total f ((t :: ts).drop BATCH_SIZE)
            (i + ((t :: ts).take BATCH_SIZE).length)).calls := by
        rcases hassign : assignLoop ((t :: ts).take BATCH_SIZE)
            (if (((t :: ts).take BATCH_SIZE).filter nonblank).isEmpty then []
              else cls (((t :: ts).take BATCH_SIZE).filter nonblank)) with _ | pr
        · rw [hassign] at hc
          exact Or.inl hc
        · rcases pr with ⟨sents, leftover⟩
          rw [hassign] at hc
          dsimp only at hc
          exact List.mem_append.1 hc
      rcases hsub with hc0 | hcr
      · split_ifs at hc0 with hE
        · simp at hc0
        · have hceq : c = ((t :: ts).take BATCH_SIZE).filter nonblank := by
            simpa using hc0
          subst hceq
          constructor
          · intro hnil
            rw [hnil] at hE
            simp at hE
          · intro s hs
            exact (List.mem_filter.1 hs).2
      · exact ih _ _ _ hcr

/-- Blank rows always get `'neutral'`, and the non-blank rows get exactly the
label-mapped classifier outputs, consumed in order (lines 141–156). -/
theorem runBatchesFuel_blank (cls : List String → List String)
    (hlen : ∀ l, (cls l).length = l.length) (total : ℕ) :
    ∀ f rest i, rest.length ≤ f →
      (∀ p ∈ (runBatchesFuel cls total f rest i).results,
        nonblank p.1 = false → p.2 = "neutral") ∧
      ((runBatchesFuel cls total f rest i).results.filter
          (fun p => nonblank p.1)).map Prod.snd
        = ((runBatchesFuel cls total f rest i).calls.map cls).flatten.map labelOf := by
  intro f
  induction f with
  | zero =>
    intro rest i h
    have : rest = [] := List.eq_nil_of_length_eq_zero (by omega)
    subst this
    exact ⟨by intro p hp; simp [runBatchesFuel] at hp, rfl⟩
  | succ f ih =>
    intro rest i h
    cases rest with
    | nil => exact ⟨by intro p hp; simp [runBatchesFuel] at hp, rfl⟩
    | cons t ts =>
      have hpl : (((t :: ts).take BATCH_SIZE).filter nonblank).length ≤
          (if (((t :: ts).take BATCH_SIZE).filter nonblank).isEmpty then []
            else cls (((t :: ts).take BATCH_SIZE).filter nonblank)).length := by
        split_ifs with hempty
        · rw [List.isEmpty_iff] at hempty
          rw [hempty]
        · rw [hlen]
      obtain ⟨sents, heq, hslen, hneu, hfilt⟩ := assignLoop_spec _ _ hpl
      have hrec := ih ((t :: ts).drop BATCH_SIZE) (i + ((t :: ts).take BATCH_SIZE).length)
        (by
          have hB : BATCH_SIZE = 10 := rfl
          simp only [List.length_drop, List.length_cons] at h ⊢
          omega)
      rw [runBatchesFuel, heq]
      dsimp only
      constructor
      · intro p hp hblank
        rcases List.mem_append.1 hp with hp1 | hp2
        · exact hneu p hp1 hblank
        · exact hrec.1 p hp2 hblank
      · rw [List.filter_append, List.map_append, hrec.2, List.map_append, List.flatten_append,
          List.map_append, hfilt]
        congr 1
        split_ifs with hE
        · rw [List.isEmpty_iff] at hE
          rw [hE]
          simp
        · rw [← hlen, List.take_length]
          simp

/-! ### Handler-level lemmas -/

theorem pyTruthy_some (s : String) (h : s ≠ "") : pyTruthy (some s) = true := by
  have he : s.isEmpty = false :=
    Bool.eq_false_iff.2 fun h2 => h ((String.isEmpty_iff s).1 h2)
  unfold pyTruthy
  dsimp only
  rw [he]
  rfl

/-- Unfolding of the WebSocket handler on the successful validation path:
model loaded, both fields present and nonempty, CSV parsed, column present. -/
theorem websocket_endpoint_run (cls : List String → List String)
    (parse : String → Except String Table) (col csv : String) (df : Table)
    (hcol : col ≠ "") (hcsv : csv ≠ "") (hparse : parse csv = .ok df)
    (hmem : (df.cols.map Prod.fst).contains col = true) :
    websocket_endpoint true cls parse (some col, some csv) =
      match (runBatches cls (colTexts df col).length (colTexts df col) 0).failure with
      | some msg =>
        ⟨Event.info ("Processing " ++ toString (colTexts df col).length
              ++ " texts from column \x27" ++ col ++ "\x27...")
            :: (runBatches cls (colTexts df col).length (colTexts df col) 0).progresses.map
              Event.progress
            ++ [Event.error ("An unexpected error occurred: " ++ msg)],
          (runBatches cls (colTexts df col).length (colTexts df col) 0).calls, true⟩
      | none =>
        ⟨Event.info ("Processing " ++ toString (colTexts df col).length
              ++ " texts from column \x27" ++ col ++ "\x27...")
            :: (runBatches cls (colTexts df col).length (colTexts df col) 0).progresses.map
              Event.progress
            ++ [Event.complete
              (runBatches cls (colTexts df col).length (colTexts df col) 0).results],
          (runBatches cls (colTexts df col).length (colTexts df col) 0).calls, true⟩ := by
  have h1 : pyTruthy (some col) = true := pyTruthy_some col hcol
  have h2 : pyTruthy (some csv) = true := pyTruthy_some csv hcsv
  unfold websocket_endpoint
  simp only [h1, h2, Bool.and_self, Bool.not_true, Bool.false_eq_true, if_false,
    Option.getD_some, hparse, hmem]

/-! ### Concrete fixtures for witnesses and counterexamples -/

/-- A deterministic stand-in for the external classifier: one `LABEL_2` per
input text. -/
def clsW : List String → List String := fun l => l.map fun _ => "LABEL_2"

/-- A parse stub that always fails. -/
def parseFailW : String → Except String Table := fun _ => .error "stub"

/-- A parse stub producing a table with columns `a`, `b` only. -/
def parseABW : String → Except String Table :=
  fun _ => .ok ⟨[("a", [some "1"]), ("b", [some "2"])]⟩

/-- A parse stub producing a table whose `text` column has zero rows. -/
def parseEmptyColW : String → Except String Table := fun _ => .ok ⟨[("text", [])]⟩

/-! ### The claims -/

/-- C7: if the classifier failed to initialise, every batch connection emits
exactly one error event naming the unloaded model and closes, and every
single-text request returns the unavailable-model error — in both cases the
output is the same for every request input (nothing is read or parsed). -/
theorem C7_model_unavailable :
    (∀ (cls : List String → List String) (parse : String → Except String Table)
        (message : Option String × Option String),
      websocket_endpoint false cls parse message
        = ⟨[Event.error "Model not loaded on server."], [], true⟩) ∧
    (∀ (cls : List String → List String) (text : String),
      analyze_text false cls text
        = (TextResponse.error "Model not loaded. Check server logs.", [])) :=
  ⟨fun _ _ _ => rfl, fun _ _ => rfl⟩

/-- C5 (amended): a batch request with a missing or empty `columnName` or
`csvData` yields exactly one error event — whose message is the required-fields
text *prefixed by* "An unexpected error occurred: ", because the `ValueError`
of line 106 is caught by the generic handler of line 170 — and no info,
progress, or complete events. -/
theorem C5_invalid_request (cls : List String → List String)
    (parse : String → Except String Table) (message : Option String × Option String)
    (h : ¬(pyTruthy message.1 = true ∧ pyTruthy message.2 = true)) :
    websocket_endpoint true cls parse message
      = ⟨[Event.error ("An unexpected error occurred: Invalid request. \x27columnName\x27 and \x27csvData\x27 are required.")],
          [], true⟩ := by
  have hb : (pyTruthy message.1 && pyTruthy message.2) = false := by
    cases h1 : pyTruthy message.1 <;> cases h2 : pyTruthy message.2 <;> simp_all
  simp [websocket_endpoint, hb]

theorem C5_invalid_request_witness :
    websocket_endpoint true clsW parseFailW (none, some "a,b")
      = ⟨[Event.error ("An unexpected error occurred: Invalid request. \x27columnName\x27 and \x27csvData\x27 are required.")],
          [], true⟩ :=
  C5_invalid_request clsW parseFailW (none, some "a,b") (by decide)

/-- C5 counterexample to the claim as stated: the single emitted error
message is not the bare string "Invalid request. 'columnName' and 'csvData'
are required." — it carries the generic-handler prefix. -/
theorem C5_invalid_request_cx :
    (websocket_endpoint true clsW parseFailW (none, some "a,b")).events
        = [Event.error ("An unexpected error occurred: Invalid request. \x27columnName\x27 and \x27csvData\x27 are required.")] ∧
      ("An unexpected error occurred: Invalid request. \x27columnName\x27 and \x27csvData\x27 are required."
        : String) ≠ "Invalid request. \x27columnName\x27 and \x27csvData\x27 are required." := by
  decide

/-- C8: a batch request whose CSV parses but whose selected column is absent
emits exactly one error event whose message names the missing column, and no
info, progress, or complete events. -/
theorem C8_missing_column (cls : List String → List String)
    (parse : String → Except String Table) (col csv : String) (df : Table)
    (hcol : col ≠ "") (hcsv : csv ≠ "") (hparse : parse csv = .ok df)
    (hmem : (df.cols.map Prod.fst).contains col = false) :
    websocket_endpoint true cls parse (some col, some csv)
      = ⟨[Event.error ("Error parsing CSV: CSV file must contain a \x27" ++ col
            ++ "\x27 column.")], [], true⟩ := by
  have h1 : pyTruthy (some col) = true := pyTruthy_some col hcol
  have h2 : pyTruthy (some csv) = true := pyTruthy_some csv hcsv
  unfold websocket_endpoint
  simp only [h1, h2, Bool.and_self, Bool.not_true, Bool.false_eq_true, if_false,
    Option.getD_some, hparse, hmem, Bool.not_false, if_true]

theorem C8_missing_column_witness :
    websocket_endpoint true clsW parseABW (some "text", some "a,b\n1,2")
      = ⟨[Event.error ("Error parsing CSV: CSV file must contain a \x27text\x27 column.")],
          [], true⟩ :=
  C8_missing_column clsW parseABW "text" "a,b\n1,2" ⟨[("a", [some "1"]), ("b", [some "2"])]⟩
    (by decide) (by decide) rfl (by decide)

/-- C9: a valid batch request whose selected column has zero rows emits the
info event and then exactly one complete event with an empty result sequence,
no progress events, and no error (the `range(0, 0, 10)` loop body — and with
it the division by `total_texts` — is never executed). -/
theorem C9_zero_rows (cls : List String → List String)
    (parse : String → Except String Table) (col csv : String) (df : Table)
    (hcol : col ≠ "") (hcsv : csv ≠ "") (hparse : parse csv = .ok df)
    (hmem : (df.cols.map Prod.fst).contains col = true)
    (hempty : colTexts df col = []) :
    websocket_endpoint true cls parse (some col, some csv)
      = ⟨[Event.info ("Processing " ++ toString (0 : ℕ) ++ " texts from column \x27"
            ++ col ++ "\x27..."),
          Event.complete []], [], true⟩ ∧
    progressValues (websocket_endpoint true cls parse (some col, some csv)).events = [] := by
  have hrun := websocket_endpoint_run cls parse col csv df hcol hcsv hparse hmem
  rw [hempty] at hrun
  have hacc : runBatches cls ([] : List String).length [] 0 = ⟨[], [], [], none⟩ := rfl
  rw [hacc] at hrun
  refine ⟨?_, ?_⟩
  · rw [hrun]
    rfl
  · rw [hrun]
    rfl

theorem C9_zero_rows_witness :
    websocket_endpoint true clsW parseEmptyColW (some "text", some "text\n")
        = ⟨[Event.info ("Processing " ++ toString (0 : ℕ) ++ " texts from column \x27text\x27..."),
            Event.complete []], [], true⟩ ∧
      progressValues (websocket_endpoint true clsW parseEmptyColW
        (some "text", some "text\n")).events = [] :=
  C9_zero_rows clsW parseEmptyColW "text" "text\n" ⟨[("text", [])]⟩
    (by decide) (by decide) rfl (by decide) (by decide)

/-- C10: assuming the classifier returns exactly one label per input text,
the reassembly walk of lines 142–152 succeeds (no `IndexError`: every read of
`model_results[model_result_index]` is within bounds) and consumes the whole
label list — exactly one label per non-blank row — producing one sentiment
per row. -/
theorem C10_reassembly_in_bounds (batch labels : List String)
    (hlen : labels.length = (batch.filter nonblank).length) :
    ∃ sents, assignLoop batch labels = some (sents, []) ∧ sents.length = batch.length := by
  obtain ⟨sents, heq, hslen, _, _⟩ := assignLoop_spec batch labels (le_of_eq hlen.symm)
  refine ⟨sents, ?_, hslen⟩
  rw [heq, ← hlen, List.drop_length]

theorem C10_reassembly_in_bounds_witness :
    ∃ sents, assignLoop ["hello", " ", "world"] ["LABEL_0", "LABEL_2"] = some (sents, [])
      ∧ sents.length = 3 :=
  C10_reassembly_in_bounds ["hello", " ", "world"] ["LABEL_0", "LABEL_2"] (by decide)

/-- A parse stub producing a 3-row `text` column with one NaN cell. -/
def parse3W : String → Except String Table :=
  fun _ => .ok ⟨[("text", [some "hello", none, some "world"])]⟩

theorem progressValues_shape (msg : String) (progs : List ℤ)
    (data : List (String × String)) :
    progressValues (Event.info msg :: progs.map Event.progress
      ++ [Event.complete data]) = progs := by
  unfold progressValues
  simp only [List.filterMap_cons, List.filterMap_append, List.filterMap_map, Function.comp,
    List.filterMap_some, List.filterMap_nil, List.append_nil]
  induction progs with
  | nil => rfl
  | cons p ps ih =>
    rw [List.filterMap_cons]
    dsimp only [Function.comp]
    rw [ih]

/-- The classifier of a completing run behaves (one label per input), so the
loop's `failure` is `none`; packaged for reuse. -/
theorem runBatches_ok (cls : List String → List String)
    (hlen : ∀ l, (cls l).length = l.length) (texts : List String) :
    (runBatches cls texts.length texts 0).failure = none ∧
      (runBatches cls texts.length texts 0).results.map Prod.fst = texts ∧
      (runBatches cls texts.length texts 0).progresses
        = (endsFuel texts.length texts.length 0).map
            (fun r => progressCalc r texts.length) :=
  runBatchesFuel_spec cls hlen texts.length texts.length texts 0 le_rfl

/-- C1: a batch request that reaches PROCESSING (model loaded, fields
present, CSV parsed, column found) and completes (the classifier returns one
label per input) ends its event stream with one complete event whose payload
has exactly one `{text, sentiment}` entry per input row, in the original row
order (the payload's text components are the rows themselves). -/
theorem C1_complete_results (cls : List String → List String)
    (parse : String → Except String Table) (col csv : String) (df : Table)
    (hlen : ∀ l, (cls l).length = l.length)
    (hcol : col ≠ "") (hcsv : csv ≠ "") (hparse : parse csv = .ok df)
    (hmem : (df.cols.map Prod.fst).contains col = true) :
    ∃ data : List (String × String),
      (websocket_endpoint true cls parse (some col, some csv)).events.getLast?
          = some (Event.complete data) ∧
      data.length = (colTexts df col).length ∧
      data.map Prod.fst = colTexts df col := by
  have hrun := websocket_endpoint_run cls parse col csv df hcol hcsv hparse hmem
  have hspec := runBatches_ok cls hlen (colTexts df col)
  rw [hrun, hspec.1]
  refine ⟨(runBatches cls (colTexts df col).length (colTexts df col) 0).results, ?_, ?_, ?_⟩
  · show (Event.info _ :: (_ ++ [Event.complete _])).getLast? = _
    rw [← List.cons_append, List.getLast?_concat]
  · have := congrArg List.length hspec.2.1
    rw [List.length_map] at this
    exact this
  · exact hspec.2.1

theorem C1_complete_results_witness :
    ∃ data : List (String × String),
      (websocket_endpoint true clsW parse3W (some "text", some "c")).events.getLast?
          = some (Event.complete data) ∧
      data.length = (colTexts ⟨[("text", [some "hello", none, some "world"])]⟩ "text").length ∧
      data.map Prod.fst = colTexts ⟨[("text", [some "hello", none, some "world"])]⟩ "text" :=
  C1_complete_results clsW parse3W "text" "c" ⟨[("text", [some "hello", none, some "world"])]⟩
    (fun l => by simp [clsW]) (by decide) (by decide) rfl (by decide)

/-- C2: in a completing batch run, every blank row (empty after stripping)
gets sentiment `'neutral'` and is never part of any classifier invocation —
every invocation is a nonempty list of non-blank strings — while the
non-blank rows receive exactly `label_map.get(...)` of the classifier's
outputs, consumed in input order. -/
theorem C2_blank_rows_neutral (cls : List String → List String)
    (parse : String → Except String Table) (col csv : String) (df : Table)
    (hlen : ∀ l, (cls l).length = l.length)
    (hcol : col ≠ "") (hcsv : csv ≠ "") (hparse : parse csv = .ok df)
    (hmem : (df.cols.map Prod.fst).contains col = true) :
    ∃ data : List (String × String),
      (websocket_endpoint true cls parse (some col, some csv)).events.getLast?
          = some (Event.complete data) ∧
      (∀ p ∈ data, nonblank p.1 = false → p.2 = "neutral") ∧
      (∀ c ∈ (websocket_endpoint true cls parse (some col, some csv)).calls,
        c ≠ [] ∧ ∀ s ∈ c, nonblank s = true) ∧
      (data.filter fun p => nonblank p.1).map Prod.snd
        = (((websocket_endpoint true cls parse (some col, some csv)).calls.map
            cls).flatten).map labelOf := by
  have hrun := websocket_endpoint_run cls parse col csv df hcol hcsv hparse hmem
  have hspec := runBatches_ok cls hlen (colTexts df col)
  have hblank := runBatchesFuel_blank cls hlen (colTexts df col).length
    (colTexts df col).length (colTexts df col) 0 le_rfl
  have hcalls := runBatchesFuel_calls cls (colTexts df col).length
    (colTexts df col).length (colTexts df col) 0
  rw [hrun, hspec.1]
  refine ⟨(runBatches cls (colTexts df col).length (colTexts df col) 0).results,
    ?_, ?_, ?_, ?_⟩
  · show (Event.info _ :: (_ ++ [Event.complete _])).getLast? = _
    rw [← List.cons_append, List.getLast?_concat]
  · exact hblank.1
  · exact fun c hc => hcalls c hc
  · exact hblank.2

theorem C2_blank_rows_neutral_witness :
    ∃ data : List (String × String),
      (websocket_endpoint true clsW parse3W (some "text", some "c")).events.getLast?
          = some (Event.complete data) ∧
      (∀ p ∈ data, nonblank p.1 = false → p.2 = "neutral") ∧
      (∀ c ∈ (websocket_endpoint true clsW parse3W (some "text", some "c")).calls,
        c ≠ [] ∧ ∀ s ∈ c, nonblank s = true) ∧
      (data.filter fun p => nonblank p.1).map Prod.snd
        = (((websocket_endpoint true clsW parse3W (some "text", some "c")).calls.map
            clsW).flatten).map labelOf :=
  C2_blank_rows_neutral clsW parse3W "text" "c" ⟨[("text", [some "hello", none, some "world"])]⟩
    (fun l => by simp [clsW]) (by decide) (by decide) rfl (by decide)

/-- C3: in a completing batch run, every emitted progress value lies in
`[0, 100]`, the emitted progress sequence is monotonically non-decreasing,
and — when the column is nonempty — the last progress value emitted (just
before the complete event) is exactly 100. -/
theorem C3_progress_invariants (cls : List String → List String)
    (parse : String → Except String Table) (col csv : String) (df : Table)
    (hlen : ∀ l, (cls l).length = l.length)
    (hcol : col ≠ "") (hcsv : csv ≠ "") (hparse : parse csv = .ok df)
    (hmem : (df.cols.map Prod.fst).contains col = true) :
    (∀ p ∈ progressValues (websocket_endpoint true cls parse
        (some col, some csv)).events, 0 ≤ p ∧ p ≤ 100) ∧
    List.Pairwise (fun a b => a ≤ b)
      (progressValues (websocket_endpoint true cls parse (some col, some csv)).events) ∧
    (colTexts df col ≠ [] →
      (progressValues (websocket_endpoint true cls parse
        (some col, some csv)).events).getLast? = some 100) := by
  have hrun := websocket_endpoint_run cls parse col csv df hcol hcsv hparse hmem
  have hspec := runBatches_ok cls hlen (colTexts df col)
  rw [hrun, hspec.1, progressValues_shape, hspec.2.2]
  refine ⟨?_, ?_, ?_⟩
  · intro p hp
    rcases List.mem_map.1 hp with ⟨r, _, hr⟩
    exact hr ▸ ⟨progressCalc_nonneg r _, progressCalc_le_100 r _⟩
  · rcases Nat.eq_zero_or_pos (colTexts df col).length with h0 | h0
    · rw [h0, endsFuel_zero_arg]
      simp
    · exact List.Pairwise.map _
        (fun a b hab => progressCalc_mono a b _ h0 (le_of_lt hab))
        (endsFuel_sorted _ _ _)
  · intro hne
    have hn : (colTexts df col).length ≠ 0 := fun h0 => hne (List.eq_nil_of_length_eq_zero h0)
    rw [List.getLast?_map, endsFuel_last _ _ _ hn le_rfl]
    simp [progressCalc_total _ (Nat.pos_of_ne_zero hn)]

/-- C4 counterexample to exact arithmetic: at the reachable chunk end
`rows_processed = 290` of a request with `total_count = 1000` (chunk starting
at `i = 280`), the float computation of line 159 emits 28, while
`floor(min(100, 100 * 290 / 1000)) = 29` over exact arithmetic. -/
theorem C4_float_vs_exact_cx :
    progressCalc 290 1000 = 28 ∧ progressSpecExact 290 1000 = 29 ∧ (28 : ℤ) ≠ 29 := by
  refine ⟨by decide, ?_, by decide⟩
  unfold progressSpecExact
  norm_num

/-- C4 (amended): each emitted progress value is
`min(100, int(((i + len(batch)) / total) * 100))` evaluated in IEEE-754
binary64 arithmetic (`progressCalc`), which can fall below the
exact-arithmetic `floor(min(100, 100 * rows / total))`; for
`total_count = 25` and batch size 10 the emitted values are exactly
40, 80, 100 in that order, agreeing with exact arithmetic there. -/
theorem C4_progress_values_25 (cls : List String → List String)
    (parse : String → Except String Table) (col csv : String) (df : Table)
    (hlen : ∀ l, (cls l).length = l.length)
    (hcol : col ≠ "") (hcsv : csv ≠ "") (hparse : parse csv = .ok df)
    (hmem : (df.cols.map Prod.fst).contains col = true)
    (h25 : (colTexts df col).length = 25) :
    progressValues (websocket_endpoint true cls parse (some col, some csv)).events
        = [40, 80, 100] ∧
      progressCalc 10 25 = progressSpecExact 10 25 ∧
      progressCalc 20 25 = progressSpecExact 20 25 ∧
      progressCalc 25 25 = progressSpecExact 25 25 := by
  have hrun := websocket_endpoint_run cls parse col csv df hcol hcsv hparse hmem
  have hspec := runBatches_ok cls hlen (colTexts df col)
  rw [hrun, hspec.1, progressValues_shape, hspec.2.2, h25]
  refine ⟨by decide, ?_, ?_, ?_⟩
  · have h1 : progressCalc 10 25 = 40 := by decide
    have h2 : progressSpecExact 10 25 = 40 := by unfold progressSpecExact; norm_num
    rw [h1, h2]
  · have h1 : progressCalc 20 25 = 80 := by decide
    have h2 : progressSpecExact 20 25 = 80 := by unfold progressSpecExact; norm_num
    rw [h1, h2]
  · have h1 : progressCalc 25 25 = 100 := by decide
    have h2 : progressSpecExact 25 25 = 100 := by unfold progressSpecExact; norm_num
    rw [h1, h2]

/-- A parse stub producing a 25-row `t` column. -/
def parse25W : String → Except String Table :=
  fun _ => .ok ⟨[("t", (List.range 25).map fun n => some (toString n))]⟩

theorem C4_progress_values_25_witness :
    progressValues (websocket_endpoint true clsW parse25W (some "t", some "c")).events
        = [40, 80, 100] ∧
      progressCalc 10 25 = progressSpecExact 10 25 ∧
      progressCalc 20 25 = progressSpecExact 20 25 ∧
      progressCalc 25 25 = progressSpecExact 25 25 :=
  C4_progress_values_25 clsW parse25W "t" "c"
    ⟨[("t", (List.range 25).map fun n => some (toString n))]⟩
    (fun l => by simp [clsW]) (by decide) (by decide) rfl (by decide) (by decide)

/-- In every branch of the WebSocket handler, every classifier invocation is
on a nonempty list of non-blank strings. -/
theorem websocket_calls_spec (loaded : Bool) (cls : List String → List String)
    (parse : String → Except String Table) (message : Option String × Option String) :
    ∀ c ∈ (websocket_endpoint loaded cls parse message).calls,
      c ≠ [] ∧ ∀ s ∈ c, nonblank s = true := by
  intro c hc
  unfold websocket_endpoint at hc
  cases loaded with
  | false => simp at hc
  | true =>
    simp only [Bool.not_true, Bool.false_eq_true, if_false] at hc
    split_ifs at hc with h1
    · simp at hc
    · split at hc
      · simp at hc
      · split_ifs at hc with h2
        · simp at hc
        · split at hc
          · exact runBatchesFuel_calls cls _ _ _ _ c hc
          · exact runBatchesFuel_calls cls _ _ _ _ c hc

/-- C6 counterexample to the claim as stated: the single-text endpoint passes
`item.text` to the classifier unfiltered, so a blank text is sent to it. -/
theorem C6_blank_single_text_cx :
    (analyze_text true clsW "   ").2 = [["   "]] ∧ nonblank "   " = false := by
  decide

/-- C6 (amended): in the batch endpoint the classifier is never invoked on an
empty sequence and never with a blank string among its inputs; in the
single-text endpoint it is never invoked on an empty sequence — every
invocation is exactly `[text]` — but the text is passed unfiltered, so a
blank single text does reach the classifier. -/
theorem C6_classifier_inputs (loaded : Bool) (cls : List String → List String)
    (parse : String → Except String Table) (message : Option String × Option String)
    (text : String) :
    (∀ c ∈ (websocket_endpoint loaded cls parse message).calls,
      c ≠ [] ∧ ∀ s ∈ c, nonblank s = true) ∧
    (∀ c ∈ (analyze_text loaded cls text).2, c = [text] ∧ c ≠ []) := by
  refine ⟨websocket_calls_spec loaded cls parse message, ?_⟩
  intro c hc
  unfold analyze_text at hc
  cases loaded with
  | false => simp at hc
  | true =>
    simp only [Bool.not_true, Bool.false_eq_true, if_false] at hc
    split at hc <;>
      simp only [List.mem_singleton] at hc <;>
      exact ⟨hc, by rw [hc]; exact List.cons_ne_nil _ _⟩

theorem C6_classifier_inputs_witness :
    (["abc"] : List String) = ["abc"] ∧ (["abc"] : List String) ≠ [] :=
  (C6_classifier_inputs true clsW parseFailW (none, none) "abc").2 ["abc"] (by decide)

theorem C3_progress_invariants_witness :
    (∀ p ∈ progressValues (websocket_endpoint true clsW parse25W
        (some "t", some "c")).events, 0 ≤ p ∧ p ≤ 100) ∧
      List.Pairwise (fun a b => a ≤ b)
        (progressValues (websocket_endpoint true clsW parse25W (some "t", some "c")).events) ∧
      (colTexts ⟨[("t", (List.range 25).map fun n => some (toString n))]⟩ "t" ≠ [] →
        (progressValues (websocket_endpoint true clsW parse25W
          (some "t", some "c")).events).getLast? = some 100) :=
  C3_progress_invariants clsW parse25W "t" "c"
    ⟨[("t", (List.range 25).map fun n => some (toString n))]⟩
    (fun l => by simp [clsW]) (by decide) (by decide) rfl (by decide)

end SAW
